import Mathlib

/-!
Shallow embedding of the AIL_SOFT_TEXT_DISASSEMBLER repository (Python).

Bytes are modelled as `Nat` (each in `0..255` when produced by the byte
readers); byte buffers are `List Nat`.  Python lists used as stacks
(`append` / `pop` / `[-1]` / `[0]`) are modelled as Lean lists growing at
the tail, so Python's `l[-1]` is `getLast` and `l[0]` is `head`.
Fallible code paths (Python exceptions) are modelled with `Option` /
`Except`.  Shift-JIS decoding is external to the repository; decoded
strings are modelled as their raw byte lists (on ASCII input the decode
is the identity, and the accumulated bytes never contain `0x00`, so the
trailing `strip` of NUL characters is a no-op).
-/

namespace AilDisasm

/-- Header structure from `Utilities.FileHeader`. -/
structure FileHeader where
  reserved1 : Nat
  command_block_size : Nat
  command_block_for_text_size : Nat
  string_table_size : Nat
  reserved2 : Nat
deriving Repr, DecidableEq

/-- Error kinds raised by `Disassemble.Disassembler` (`DisassemblerError`
raise sites, distinguished by their message). -/
inductive DisasmError where
  | tooSmall
  | truncatedFile
deriving Repr, DecidableEq

/-- `Utilities.read_uint16` on a byte list (little endian). -/
def read_uint16 (data : List Nat) (off : Nat) : Nat :=
  data.getD off 0 + 256 * data.getD (off + 1) 0

/-- `Utilities.read_uint32` on a byte list (little endian). -/
def read_uint32 (data : List Nat) (off : Nat) : Nat :=
  data.getD off 0 + 256 * data.getD (off + 1) 0 +
    65536 * data.getD (off + 2) 0 + 16777216 * data.getD (off + 3) 0

/-- `Disassembler._parse_header`. -/
def parse_header (data : List Nat) : Except DisasmError FileHeader :=
  if data.length < 12 then .error .tooSmall
  else .ok
    { reserved1 := read_uint32 data 0
      command_block_size := read_uint16 data 4
      command_block_for_text_size := read_uint16 data 6
      string_table_size := read_uint16 data 8
      reserved2 := read_uint16 data 10 }

/-- `Utilities.GlobalBuffer` (the shared segment buffers and cursor). -/
structure GlobalBuffer where
  command_data : List Nat
  text_data : List Nat
  command_data_offset : Nat
deriving Repr, DecidableEq

/-- `Disassembler._setup_global_buffers`: validates the declared segment
sizes against the file size, then slices out the command-for-text region
and the string-table region, resetting the cursor to 0. -/
def setup_global_buffers (data : List Nat) (h : FileHeader) :
    Except DisasmError GlobalBuffer :=
  let required := 12 + h.command_block_size + h.command_block_for_text_size +
    h.string_table_size
  if data.length < required then .error .truncatedFile
  else
    let offset := 12 + h.command_block_size
    let command_end := offset + h.command_block_for_text_size
    .ok { command_data := (data.drop offset).take h.command_block_for_text_size
          text_data := (data.drop command_end).take h.string_table_size
          command_data_offset := 0 }

/-- Loop body of `Utilities.read_C_string`, recursing over the suffix of
the data that starts at the current offset.  `accLen` is the number of
bytes accumulated so far (`len(result)` in the Python).  Returns the
number of bytes consumed from the suffix together with the accumulated
(non-NUL) bytes.  A `0x00` byte terminates: two consecutive `0x00` bytes
consume 2 extra bytes, a single `0x00` consumes 1.  After appending a
regular byte the safety check `len(result) > 5000` stops the loop. -/
def read_C_aux : List Nat → Nat → Nat × List Nat
  | [], _ => (0, [])
  | b :: rest, accLen =>
    if b = 0 then
      match rest with
      | 0 :: _ => (2, [])
      | _ => (1, [])
    else
      if accLen + 1 > 5000 then (1, [b])
      else
        let r := read_C_aux rest (accLen + 1)
        (r.1 + 1, b :: r.2)

/-- `Utilities.read_C_string`: reads a null-terminated byte string from
`data` starting at `txt_offset`; returns `(bytes_read, accumulated bytes)`
(the decoded string is modelled by its bytes, see the file comment). -/
def read_C_string (data : List Nat) (txt_offset : Nat) : Nat × List Nat :=
  read_C_aux (data.drop txt_offset) 0

/-- `Fake_Stack.create_mask`: a mask with `bit_count` low bits set
(0 when `bit_count <= 0`; on `Nat` the two branches agree). -/
def create_mask (bit_count : Nat) : Nat :=
  if bit_count = 0 then 0 else (1 <<< bit_count) - 1

/-- The first `while` loop of `Fake_Stack.extract_bit_field`: number of
right shifts until the low bit is 1.  Python's `while` is modelled with a
fuel argument; `count_low_zeros` below supplies fuel `p`, which is enough
for every nonzero `p` (the guard `bit_pattern == 0` in the caller rules
out the diverging case). -/
def clz_aux : Nat → Nat → Nat
  | 0, _ => 0
  | fuel + 1, p => if p % 2 = 0 then clz_aux fuel (p / 2) + 1 else 0

/-- Trailing-zero count used by `Fake_Stack.extract_bit_field`
(`leading_zeros` in the Python source). -/
def count_low_zeros (p : Nat) : Nat := clz_aux p p

/-- The second `while` loop of `Fake_Stack.extract_bit_field`: length of
the run of consecutive one bits at the bottom of `p` (fuel-indexed). -/
def clo_aux : Nat → Nat → Nat
  | 0, _ => 0
  | fuel + 1, p => if p % 2 = 1 then clo_aux fuel (p / 2) + 1 else 0

/-- Run-of-ones count used by `Fake_Stack.extract_bit_field`
(`ones_count` in the Python source). -/
def count_low_ones (p : Nat) : Nat := clo_aux p p

/-- `Fake_Stack.extract_bit_field`, parameterized by the global
`word_table` (a 256-entry table of zeros in the source,
see `word_table0`). -/
def extract_bit_field (word_table : List Nat) (table_index bit_pattern : Nat) :
    Nat :=
  if bit_pattern = 0 then bit_pattern
  else
    let leading_zeros := count_low_zeros bit_pattern
    let temp_pattern := bit_pattern >>> leading_zeros
    let ones_count := count_low_ones temp_pattern
    let word_value := if table_index < word_table.length
      then word_table.getD table_index 0 else 0
    (word_value >>> leading_zeros) &&& create_mask ones_count

/-- `Fake_Stack.word_table`: `[0] * 256`, never written. -/
def word_table0 : List Nat := List.replicate 256 0

/-- `Utilities._sub_414FE6`: same bit-field extraction shape, but with the
looked-up table value hardcoded to 0 (`value = 0` in the source, since
`word_498710` is all zeros); hence the extracted value is always
`(0 >>> shift) &&& mask`. -/
def sub_414FE6 (a1 a2 : Nat) : Nat :=
  if a2 = 0 then a2
  else
    let i := count_low_zeros (a2 % 65536)
    let v4 := count_low_ones ((a2 % 65536) >>> i)
    let mask := (1 <<< v4) - 1
    (0 >>> i) &&& mask

/-- `Utilities.sub_42164D`: searches a 238-byte all-zero table for `a1`;
every `search_value` read from the zero table is 0, and the matching
`result_value` is also 0, so the function returns 0 for every input. -/
def sub_42164D (a1 : Nat) : Nat :=
  if a1 = 0 then 0 else 0

/-! ### The expression VM (`Fake_Stack.execute_vm_code`) -/

/-- `Fake_Stack.read_next_byte`: reads from the command buffer at `pos`;
at or past the end it returns the `0xFF` end-of-data marker without
advancing the cursor. -/
def read_next_byte (data : List Nat) (pos : Nat) : Nat × Nat :=
  if data.length ≤ pos then (255, pos)
  else (data.getD pos 0, pos + 1)

/-- `Utilities.get_next_word`: little-endian 16-bit read advancing the
cursor by 2; `none` (Python `None`) when fewer than 2 bytes remain. -/
def get_next_word (data : List Nat) (pos : Nat) : Option (Nat × Nat) :=
  if data.length ≤ pos + 1 then none
  else some (read_uint16 data pos, pos + 2)

/-- `Fake_Stack.read_processed_value`: reads a table-index byte and a
16-bit word; if the index byte is not `0xFF` the word is transformed by
`extract_bit_field` (against the all-zero `word_table`); the result is
masked to 16 bits.  A failed word read makes the Python crash with a
`TypeError` (arithmetic on `None`), modelled as `none`. -/
def read_processed_value (data : List Nat) (pos : Nat) : Option (Nat × Nat) :=
  let r := read_next_byte data pos
  match get_next_word data r.2 with
  | none => none
  | some (w, pos2) =>
    if r.1 ≠ 255 then some (extract_bit_field word_table0 r.1 w % 65536, pos2)
    else some (w % 65536, pos2)

/-- Python `l[-1] = v` on a stack modelled with its top at the tail. -/
def set_last (l : List Nat) (v : Nat) : List Nat := l.dropLast ++ [v]

/-- The value the division operator (operation 23) writes to the top of
the flag stack: `flag // divisor`, coerced to 0 when the divisor is 0. -/
def div_result (flag divisor : Nat) : Nat :=
  if divisor ≠ 0 then flag / divisor else 0

/-- The value the modulo operator (operation 24) writes to the top of
the flag stack: `flag % divisor`, coerced to 0 when the divisor is 0. -/
def mod_result (flag divisor : Nat) : Nat :=
  if divisor ≠ 0 then flag % divisor else 0

/-- Phase 2 of `Fake_Stack.execute_vm_code`: applies one operator code to
the pair of stacks (`value_stack`, `flag_stack`), returning the new
stacks and whether the recoverable modulo-by-zero condition was
signalled (the `sub_412956` call site in the source).  Subtraction is
computed on Python integers and masked to 32 bits, hence the `Int.emod`. -/
def apply_operation (operation : Nat) (vs fs : List Nat) :
    (List Nat × List Nat) × Bool :=
  if 11 < operation then
    let op_type := operation - 12
    if op_type = 0 then
      -- Logical NOT (operation 12)
      if 1 ≤ fs.length then
        let fs1 :=
          if fs.getLastD 0 ≠ 0 then set_last fs 1
          else if 1 ≤ vs.length ∧ vs.getLastD 0 ≠ 0 then set_last fs 1
          else set_last fs 0
        let vs1 := if 1 ≤ vs.length then vs.dropLast else vs
        let fs2 := if 2 ≤ fs1.length then fs1.dropLast else fs1
        ((vs1, fs2), false)
      else ((vs, fs), false)
    else if op_type = 8 then
      -- Addition (operation 20)
      if 1 ≤ vs.length ∧ 1 ≤ fs.length then
        let val := vs.getLastD 0
        ((vs.dropLast,
          (set_last fs ((fs.getLastD 0 + val) % 4294967296)).dropLast), false)
      else ((vs, fs), false)
    else if op_type = 9 then
      -- Subtraction (operation 21)
      if 1 ≤ vs.length ∧ 1 ≤ fs.length then
        let val := vs.getLastD 0
        ((vs.dropLast,
          (set_last fs
            (((fs.getLastD 0 : Int) - (val : Int)).emod 4294967296).toNat).dropLast),
          false)
      else ((vs, fs), false)
    else if op_type = 10 then
      -- Multiplication (operation 22)
      if 1 ≤ vs.length ∧ 1 ≤ fs.length then
        let val := vs.getLastD 0
        ((vs.dropLast,
          (set_last fs ((fs.getLastD 0 * val) % 4294967296)).dropLast), false)
      else ((vs, fs), false)
    else if op_type = 11 then
      -- Division (operation 23): divisor 0 yields 0, no error
      if 1 ≤ vs.length ∧ 1 ≤ fs.length then
        let divisor := vs.getLastD 0
        ((vs.dropLast,
          (set_last fs (div_result (fs.getLastD 0) divisor)).dropLast), false)
      else ((vs, fs), false)
    else if op_type = 12 then
      -- Modulo (operation 24): divisor 0 signals a recoverable condition
      if 1 ≤ vs.length ∧ 1 ≤ fs.length then
        let divisor := vs.getLastD 0
        ((vs.dropLast,
          (set_last fs (mod_result (fs.getLastD 0) divisor)).dropLast),
          divisor = 0)
      else ((vs, fs), false)
    else ((vs, fs), false)
  else
    if operation = 11 then
      -- Logical NOT variant
      if 1 ≤ fs.length then
        ((vs, set_last fs (if fs.getLastD 0 = 0 then 1 else 0)), false)
      else ((vs, fs), false)
    else if operation = 0 then
      if 1 ≤ vs.length ∧ 1 ≤ fs.length then
        let val := vs.getLastD 0
        ((vs.dropLast,
          (set_last fs (if val < fs.getLastD 0 then 1 else 0)).dropLast), false)
      else ((vs, fs), false)
    else if operation = 1 then
      if 1 ≤ vs.length ∧ 1 ≤ fs.length then
        let val := vs.getLastD 0
        ((vs.dropLast,
          (set_last fs (if fs.getLastD 0 ≤ val then 1 else 0)).dropLast), false)
      else ((vs, fs), false)
    else if operation = 2 then
      if 1 ≤ vs.length ∧ 1 ≤ fs.length then
        let val := vs.getLastD 0
        ((vs.dropLast,
          (set_last fs (if fs.getLastD 0 ≠ val then 1 else 0)).dropLast), false)
      else ((vs, fs), false)
    else if operation = 3 then
      if 1 ≤ vs.length ∧ 1 ≤ fs.length then
        let val := vs.getLastD 0
        ((vs.dropLast,
          (set_last fs (if val = fs.getLastD 0 then 1 else 0)).dropLast), false)
      else ((vs, fs), false)
    else if operation = 4 then
      if 1 ≤ vs.length ∧ 1 ≤ fs.length then
        let val := vs.getLastD 0
        ((vs.dropLast,
          (set_last fs (if val ≤ fs.getLastD 0 then 1 else 0)).dropLast), false)
      else ((vs, fs), false)
    else if operation = 5 then
      if 1 ≤ vs.length ∧ 1 ≤ fs.length then
        let val := vs.getLastD 0
        ((vs.dropLast,
          (set_last fs (if fs.getLastD 0 < val then 1 else 0)).dropLast), false)
      else ((vs, fs), false)
    else if operation = 10 then
      -- Special zero check operation
      if 1 ≤ vs.length then
        ((set_last vs (if vs.getLastD 0 = 0 then 1 else 0), fs), false)
      else ((vs, fs), false)
    else ((vs, fs), false)

/-- Final observation of one VM run: the returned value
(`value_stack[0] if value_stack else 0`), the two stacks at the moment of
return, the cursor, and the number of modulo-by-zero signals. -/
structure VMResult where
  value : Nat
  value_stack : List Nat
  flag_stack : List Nat
  pos : Nat
  mod_errors : Nat
deriving Repr, DecidableEq

/-- The main loop of `Fake_Stack.execute_vm_code`, fuel-indexed (the
Python `while True`).  One iteration reads a byte: `0xFF` returns
immediately with the bottom of `value_stack` (or 0); `0` pushes a
processed operand onto `value_stack` and a `0` flag onto `flag_stack`;
any other byte is discarded (it only breaks the operand phase) and the
next byte is read as the operator code for `apply_operation`. -/
def vm_loop (data : List Nat) :
    Nat → List Nat → List Nat → Nat → Nat → Option VMResult
  | 0, _, _, _, _ => none
  | fuel + 1, vs, fs, pos, errs =>
    let r := read_next_byte data pos
    if r.1 = 255 then
      some ⟨vs.headD 0, vs, fs, r.2, errs⟩
    else if r.1 = 0 then
      match read_processed_value data r.2 with
      | none => none
      | some (v, pos2) => vm_loop data fuel (vs ++ [v]) (fs ++ [0]) pos2 errs
    else
      let rop := read_next_byte data r.2
      let step := apply_operation rop.1 vs fs
      vm_loop data fuel step.1.1 step.1.2 rop.2
        (errs + if step.2 then 1 else 0)

/-- `Fake_Stack.execute_vm_code` started on the shared cursor at `pos`
with both stacks empty.  The cursor strictly advances on every loop
iteration that recurses, so fuel `data.length + 1` never runs out. -/
def execute_vm_code (data : List Nat) (pos : Nat) : Option VMResult :=
  vm_loop data (data.length + 1) [] [] pos 0

/-! ### Name cache and string opcodes (`NormalOpcodeTable`) -/

/-- `NormalOpcodeTable.NameCache` state: the offset-keyed cache plus the
"last saved name" fallback.  The Python dict is modelled as an
association list whose most recent binding shadows older ones. -/
structure NameCacheState where
  cache : List (Nat × List Nat)
  last_saved_name : List Nat
  last_saved_name_offset : Option Nat
deriving Repr, DecidableEq

/-- The empty cache (`NameCache.__init__`). -/
def emptyNameCache : NameCacheState := ⟨[], [], none⟩

/-- `NameCache._is_japanese_name_bracket`: the decoded text starts with
`【` (Shift-JIS bytes `0x81 0x79`) and ends with `】` (`0x81 0x7A`). -/
def is_japanese_name_bracket (text : List Nat) : Bool :=
  List.isPrefixOf [129, 121] text && List.isSuffixOf [129, 122] text

/-- `NameCache.get_name`. -/
def cache_get_name (nc : NameCacheState) (offset : Nat) : Option (List Nat) :=
  nc.cache.lookup offset

/-- `NameCache.cache_name`: stores `name` at `offset` (and as the last
saved name) only when it is enclosed in the Japanese brackets. -/
def cache_name (nc : NameCacheState) (offset : Nat) (name : List Nat) :
    NameCacheState :=
  if is_japanese_name_bracket name then
    { cache := (offset, name) :: nc.cache.filter (fun e => decide (e.1 ≠ offset))
      last_saved_name := name
      last_saved_name_offset := some offset }
  else nc

/-- The flag computation at the top of
`NormalOpcodeDisassembler._handle_string_opcode`: `v252` is 1 exactly for
opcode `0x00`, and `get_string_flag` (the "name resolution" flag) is 1
exactly when `v252` is 0, i.e. for opcode `0x01`. -/
def string_opcode_flag (opcode : Nat) : Nat :=
  let v252 := if opcode = 0 then 1 else 0
  if v252 = 0 then 1 else 0

/-- The string-resolution core of
`NormalOpcodeDisassembler._handle_string_opcode` (lines 320-352): bounds
check on the text offset, `read_C_string`, the `length == 0` name-cache
fallback, and the bracket-gated cache insertion.  Returns the resolved
string (`none` when the text offset is out of bounds and nothing is
resolved) and the updated cache. -/
def handle_string_core (nc : NameCacheState) (text_data : List Nat)
    (text_offset get_string_flag : Nat) : Option (List Nat) × NameCacheState :=
  if text_offset < text_data.length then
    let r := read_C_string text_data text_offset
    if r.1 = 0 ∧ get_string_flag = 1 then
      let cached_name := (cache_get_name nc text_offset).getD []
      if cached_name ≠ [] then (some cached_name, nc)
      else if nc.last_saved_name ≠ [] then (some nc.last_saved_name, nc)
      else (some [], nc)
    else (some r.2, cache_name nc text_offset r.2)
  else (none, nc)

/-! ### Switch/case handling (`SysCallTable`) -/

/-- `SysCallOpcodeDisassembler._get_next_byte`: `none` (Python `None`) at
or past the end of the buffer. -/
def sys_get_next_byte (data : List Nat) (pos : Nat) : Option (Nat × Nat) :=
  if data.length ≤ pos then none else some (data.getD pos 0, pos + 1)

/-- The per-case loop of
`SysCallOpcodeDisassembler._handle_switch_case`: reads `n` pairs of
(case-value byte, 16-bit target), records every match
(`case_value == 255 or processed == case_value`) in order, and
accumulates `found_match`; a failed read raises
(`_safe_get_next_byte` / `_safe_get_next_word`), modelled as `none`. -/
def switch_loop (data : List Nat) (processed : Nat) :
    Nat → Nat → Bool → List (Nat × Nat) → Option (List (Nat × Nat) × Bool × Nat)
  | 0, pos, found, acc => some (acc.reverse, found, pos)
  | n + 1, pos, found, acc =>
    match sys_get_next_byte data pos with
    | none => none
    | some (cv, p1) =>
      match get_next_word data p1 with
      | none => none
      | some (ct, p2) =>
        if cv = 255 ∨ processed = cv then
          switch_loop data processed n p2 true ((cv, ct) :: acc)
        else
          switch_loop data processed n p2 found acc

/-- `SysCallOpcodeDisassembler._handle_switch_case`: reads the raw switch
parameter byte, the 16-bit comparison value, the 16-bit default target
and the case count; transforms the parameter through `sub_414FE6`; scans
all cases.  Returns (reported matches, whether the default target is
reported, final cursor). -/
def handle_switch_case (data : List Nat) (pos : Nat) :
    Option (List (Nat × Nat) × Bool × Nat) :=
  match sys_get_next_byte data pos with
  | none => none
  | some (switch_param_raw, p1) =>
    match get_next_word data p1 with
    | none => none
    | some (switch_value, p2) =>
      match get_next_word data p2 with
      | none => none
      | some (_default_target, p3) =>
        match sys_get_next_byte data p3 with
        | none => none
        | some (case_count, p4) =>
          let processed := sub_414FE6 switch_param_raw switch_value
          match switch_loop data processed case_count p4 false [] with
          | none => none
          | some (ms, found, p5) => some (ms, !found, p5)

/-- A byte-level encoding of a (case-value, target) list as it appears in
the command stream: one case-value byte followed by a little-endian
16-bit target. -/
def encode_cases : List (Nat × Nat) → List Nat
  | [] => []
  | c :: rest => c.1 :: c.2 % 256 :: c.2 / 256 :: encode_cases rest

/-! ### The two dispatchers -/

/-- Shared mutable state threaded through the dispatchers: the cursor
into `command_data`, the name cache of the normal-opcode disassembler,
and the running count of recoverable modulo-by-zero signals. -/
structure DecodeSt where
  pos : Nat
  cache : NameCacheState
  mod_errors : Nat
deriving Repr, DecidableEq

/-- One `execute_vm_code()` call from a dispatcher handler: returns the
VM value and the updated shared state; `none` when the VM crashed on a
failed word read. -/
def run_vm (data : List Nat) (st : DecodeSt) : Option (Nat × DecodeSt) :=
  match execute_vm_code data st.pos with
  | none => none
  | some r => some (r.value,
      { st with pos := r.pos, mod_errors := st.mod_errors + r.mod_errors })

/-- `VMExecutor.execute_multiple`: run the VM `n` times in sequence. -/
def run_vm_times (data : List Nat) : Nat → DecodeSt → Option DecodeSt
  | 0, st => some st
  | n + 1, st =>
    match run_vm data st with
    | none => none
    | some (_, st') => run_vm_times data n st'

/-- Behaviour vocabulary of the normal-opcode handler table
(`NormalOpcodeDisassembler._build_opcode_handlers`). -/
inductive HandlerKind where
  | simple
  | newline
  | vmExec (n : Nat)
  | stringOp
  | vmThenWordString (n : Nat)
  | playMpg
  | scenarioVM
  | choiceHints
deriving Repr, DecidableEq

/-- The handler table of `NormalOpcodeDisassembler`: maps each known
opcode to its behaviour; `none` for unknown opcodes.  Note `0xB3` is
assigned twice in the Python dict literal (once `simple_vm`, once
`simple`); the second assignment wins. -/
def normal_opcode_handlers (opcode : Nat) : Option HandlerKind :=
  match opcode with
  | 0x00 | 0x01 => some .stringOp
  | 0x04 => some .newline
  | 0x05 | 0x0B | 0x13 | 0x76 | 0x93 | 0xA6 | 0xA8 | 0xB3 | 0xCA | 0xD8
  | 0xE2 | 0xFF => some .simple
  | 0x02 | 0x10 | 0x12 | 0x15 | 0x17 | 0x18 | 0x32 | 0x33 | 0x34 | 0x35
  | 0x3D | 0x41 | 0x45 | 0x47 | 0x4E | 0x4F | 0x58 | 0x5B | 0x5D | 0x5E
  | 0x61 | 0x71 | 0x72 | 0x78 | 0x79 | 0x82 | 0x8B | 0x8C | 0x8D | 0x8E
  | 0x96 | 0xA2 | 0xA9 | 0xAD | 0xD6 | 0xE3 | 0xEE | 0xF0 | 0xF2 | 0xF6
  | 0xF7 | 0xF8 | 0xFC => some (.vmExec 1)
  | 0x0A | 0x1F | 0x28 | 0x30 | 0x38 | 0x3A | 0x44 | 0x48 | 0x60 | 0x66
  | 0x7A | 0x95 | 0x98 | 0xC6 => some (.vmExec 2)
  | 0x1E | 0x46 => some (.vmExec 3)
  | 0xAC => some (.vmExec 4)
  | 0xB4 => some (.vmExec 9)
  | 0xF1 => some (.vmExec 10)
  | 0x09 | 0x6C => some (.vmThenWordString 4)
  | 0x8A => some .playMpg
  | 0x6E => some .scenarioVM
  | 0xD7 => some .choiceHints
  | _ => none

/-- `NormalOpcodeDisassembler._handle_string_opcode`: re-reads the opcode
byte at `current_offset`, reads the 16-bit text offset (a failed word
read only prints a diagnostic and returns normally), then resolves the
string through `handle_string_core`. -/
def handle_string_opcode (cmd text : List Nat) (current_offset : Nat)
    (st : DecodeSt) : Option DecodeSt :=
  let opcode := cmd.getD current_offset 0
  match get_next_word cmd st.pos with
  | none => some st
  | some (text_offset, p1) =>
    let r := handle_string_core st.cache text text_offset
      (string_opcode_flag opcode)
    some { st with pos := p1, cache := r.2 }

/-- Runs one normal-opcode handler.  `none` models a Python exception
escaping the handler (a failed word read fed into `read_C_string`, or a
VM crash); `_handle_string_opcode` is the one word-reading handler that
returns normally on a failed word read. -/
def run_normal_handler (cmd text : List Nat) (k : HandlerKind)
    (current_offset : Nat) (st : DecodeSt) : Option DecodeSt :=
  match k with
  | .simple => some st
  | .newline => some st
  | .vmExec n => run_vm_times cmd n st
  | .stringOp => handle_string_opcode cmd text current_offset st
  | .vmThenWordString n =>
    match run_vm_times cmd n st with
    | none => none
    | some st' =>
      match get_next_word cmd st'.pos with
      | none => none
      | some (_, p1) => some { st' with pos := p1 }
  | .playMpg =>
    match get_next_word cmd st.pos with
    | none => none
    | some (_, p1) => some { st with pos := p1 }
  | .scenarioVM =>
    match get_next_word cmd st.pos with
    | none => none
    | some (_, p1) =>
      match run_vm cmd { st with pos := p1 } with
      | none => none
      | some (_, st') => some st'
  | .choiceHints =>
    match get_next_word cmd st.pos with
    | none => none
    | some (_, p1) => some { st with pos := p1 }

/-- The reportable condition of the inner dispatcher
(`NormalOpcodeDisassemblerException` raised by
`_handle_unknown_opcode`, carrying the opcode value and its offset). -/
inductive NormalEvent where
  | unknownOpcode (value offset : Nat)
deriving Repr, DecidableEq

/-- `NormalOpcodeDisassembler.process_single_command`: status `-1` at end
of data, on an unknown opcode (whose exception is caught inside the
method and reported with value and offset), or on a handler exception;
status `0` on success.  On the caught-handler-exception path only the
status is observed downstream (the loop exits), so the state there is
returned as it was before the handler ran. -/
def process_single_command (cmd text : List Nat) (st : DecodeSt) :
    Int × Option NormalEvent × DecodeSt :=
  if cmd.length ≤ st.pos then (-1, none, st)
  else
    let current_offset := st.pos
    let opcode := cmd.getD st.pos 0
    let st1 := { st with pos := st.pos + 1 }
    match normal_opcode_handlers opcode with
    | some k =>
      match run_normal_handler cmd text k current_offset st1 with
      | some st2 => (0, none, st2)
      | none => (-1, none, st1)
    | none => (-1, some (.unknownOpcode opcode current_offset), st1)

/-- `NormalOpcodeDisassembler.process_all_commands`: loops
`process_single_command` until end of data or a `-1` status
(fuel-indexed). -/
def process_all_commands (cmd text : List Nat) : Nat → DecodeSt → DecodeSt
  | 0, st => st
  | fuel + 1, st =>
    if cmd.length ≤ st.pos then st
    else
      let r := process_single_command cmd text st
      if r.1 = -1 then r.2.2
      else process_all_commands cmd text fuel r.2.2

/-- The reportable conditions of the outer dispatcher: an unmapped basic
opcode (`Unhandled opcode` print) and an unmapped extended opcode
(`Unknown adjusted opcode` print); both are reported and the loop
continues. -/
inductive SysEvent where
  | unhandledOpcode (value offset : Nat)
  | unknownAdjusted (adjusted value : Nat)
deriving Repr, DecidableEq

/-- The zero-padding skip at the end of
`SysCallOpcodeDisassembler._handle_scenario_load_opcode`: consumes zero
bytes and the first nonzero byte after them; stops without moving at end
of data. -/
def skip_zero_padding (data : List Nat) : Nat → Nat → Nat
  | 0, pos => pos
  | fuel + 1, pos =>
    match sys_get_next_byte data pos with
    | none => pos
    | some (b, p1) => if b = 0 then skip_zero_padding data fuel p1 else p1

/-- `SysCallOpcodeDisassembler._process_opcode` (one opcode of the outer
loop, with `_process_extended_opcode` / `_process_basic_opcode`):
returns the new state and an optional reported condition, or `none` when
an exception escapes (ending the outer loop). -/
def process_sys_opcode (cmd text : List Nat) (opcode current_offset : Nat)
    (st : DecodeSt) : Option (DecodeSt × Option SysEvent) :=
  if 11 < opcode then
    let adjusted := opcode - 12
    if adjusted = 0 then
      -- conditional jump: evaluate an expression, look up the target
      match run_vm cmd st with
      | none => none
      | some (condition, st') =>
        let _jump_target := sub_42164D condition
        some (st', none)
    else if adjusted = 1 then some (st, none)
    else if adjusted = 4 then
      -- scenario call: three expressions
      match run_vm_times cmd 3 st with
      | none => none
      | some st' => some (st', none)
    else if adjusted = 5 then some (st, none)
    else if adjusted = 6 then
      -- conditional skip: falsy condition reads a 16-bit skip target
      match run_vm cmd st with
      | none => none
      | some (condition, st') =>
        if condition = 0 then
          match get_next_word cmd st'.pos with
          | none => none
          | some (_, p1) => some ({ st' with pos := p1 }, none)
        else some (st', none)
    else some (st, some (.unknownAdjusted adjusted opcode))
  else
    if opcode = 0 then
      -- basic operation: delegate to the normal dispatcher, result ignored
      let r := process_single_command cmd text st
      some (r.2.2, none)
    else if opcode = 4 then
      -- play WAV: parameter byte, id word, one expression
      match sys_get_next_byte cmd st.pos with
      | none => none
      | some (_, p1) =>
        match get_next_word cmd p1 with
        | none => none
        | some (_, p2) =>
          match run_vm cmd { st with pos := p2 } with
          | none => none
          | some (_, st') => some (st', none)
    else if opcode = 5 then
      -- audio op: parameter byte, id word, then the normal dispatcher
      match sys_get_next_byte cmd st.pos with
      | none => none
      | some (_, p1) =>
        match get_next_word cmd p1 with
        | none => none
        | some (_, p2) =>
          let r := process_single_command cmd text { st with pos := p2 }
          some (r.2.2, none)
    else if opcode = 8 then
      -- simple jump: 16-bit target (no actual jump is performed)
      match get_next_word cmd st.pos with
      | none => none
      | some (_, p1) => some ({ st with pos := p1 }, none)
    else if opcode = 9 then
      match handle_switch_case cmd st.pos with
      | none => none
      | some (_, _, p1) => some ({ st with pos := p1 }, none)
    else if opcode = 10 then
      -- scenario load: one expression, then skip zero padding
      match run_vm cmd st with
      | none => none
      | some (_, st') =>
        some ({ st' with
          pos := skip_zero_padding cmd (cmd.length + 1) st'.pos }, none)
    else if opcode = 11 then
      -- call operation: two expressions
      match run_vm_times cmd 2 st with
      | none => none
      | some st' => some (st', none)
    else some (st, some (.unhandledOpcode opcode current_offset))

/-- `SysCallOpcodeDisassembler.process_sys_calls`: the outer decode loop
(fuel-indexed), collecting the reported conditions; an escaping
exception ends the loop (the surrounding `try` wraps the whole loop). -/
def process_sys_calls (cmd text : List Nat) :
    Nat → DecodeSt → List SysEvent → DecodeSt × List SysEvent
  | 0, st, evs => (st, evs)
  | fuel + 1, st, evs =>
    if cmd.length ≤ st.pos then (st, evs)
    else
      let current_offset := st.pos
      let opcode := cmd.getD st.pos 0
      let st1 := { st with pos := st.pos + 1 }
      match process_sys_opcode cmd text opcode current_offset st1 with
      | none => (st1, evs)
      | some (st2, ev) =>
        process_sys_calls cmd text fuel st2 (evs ++ ev.toList)

/-! ### Claim theorems -/

/-- C1: for every input byte sequence and parsed header with sizes
`a`, `b`, `c`: if `12 + a + b + c ≤ length input`, buffer setup succeeds
and sets `command_data` to exactly the `b` bytes starting at offset
`12 + a` and `text_data` to exactly the following `c` bytes, with the
cursor set to 0; if `12 + a + b + c` exceeds the input length, setup
fails with a `TruncatedFile` error and no segments are produced. -/
theorem setup_global_buffers_correct (data : List Nat) (h : FileHeader) :
    (12 + h.command_block_size + h.command_block_for_text_size +
        h.string_table_size ≤ data.length →
      ∃ gb, setup_global_buffers data h = .ok gb ∧
        gb.command_data.length = h.command_block_for_text_size ∧
        gb.text_data.length = h.string_table_size ∧
        (∀ i, i < h.command_block_for_text_size →
          gb.command_data[i]? = data[12 + h.command_block_size + i]?) ∧
        (∀ i, i < h.string_table_size →
          gb.text_data[i]? =
            data[12 + h.command_block_size +
              h.command_block_for_text_size + i]?) ∧
        gb.command_data_offset = 0) ∧
    (data.length < 12 + h.command_block_size +
        h.command_block_for_text_size + h.string_table_size →
      setup_global_buffers data h = .error .truncatedFile) := by
  constructor
  · intro hle
    have hnot : ¬ data.length < 12 + h.command_block_size +
        h.command_block_for_text_size + h.string_table_size := by omega
    refine ⟨⟨(data.drop (12 + h.command_block_size)).take
        h.command_block_for_text_size,
      (data.drop (12 + h.command_block_size +
        h.command_block_for_text_size)).take h.string_table_size, 0⟩,
      ?_, ?_, ?_, ?_, ?_, rfl⟩
    · simp only [setup_global_buffers, if_neg hnot]
    · simp only [List.length_take, List.length_drop]
      omega
    · simp only [List.length_take, List.length_drop]
      omega
    · intro i hi
      show ((data.drop (12 + h.command_block_size)).take
        h.command_block_for_text_size)[i]? = _
      rw [List.getElem?_take, if_pos hi, List.getElem?_drop]
    · intro i hi
      show ((data.drop (12 + h.command_block_size +
        h.command_block_for_text_size)).take h.string_table_size)[i]? = _
      rw [List.getElem?_take, if_pos hi, List.getElem?_drop]
  · intro hlt
    simp only [setup_global_buffers, if_pos hlt]

/-- Witness for C1 at a concrete file: header sizes 1, 2, 3 inside a
20-byte input (both hypotheses of the two conjuncts are dischargeable;
the success branch is exercised). -/
theorem setup_global_buffers_correct_witness :
    (12 + 1 + 2 + 3 ≤ (List.range 20).length) ∧
    (∃ gb, setup_global_buffers (List.range 20) ⟨7, 1, 2, 3, 0⟩ = .ok gb ∧
      gb.command_data.length = 2 ∧
      gb.text_data.length = 3 ∧
      (∀ i, i < 2 → gb.command_data[i]? = (List.range 20)[12 + 1 + i]?) ∧
      (∀ i, i < 3 → gb.text_data[i]? = (List.range 20)[12 + 1 + 2 + i]?) ∧
      gb.command_data_offset = 0) :=
  ⟨by decide,
    (setup_global_buffers_correct (List.range 20) ⟨7, 1, 2, 3, 0⟩).1 (by decide)⟩

/-- C2 counterexample: on the stream `[0x00, 0xFF, 0x05, 0x00, 0xFF]`
(push the operand 5, then the sentinel) the VM returns 5, the bottom of
`value_stack`, whereas the stack the operators write their results to
(`flag_stack`) has bottom 0 — so the claim's "returns the bottom of the
accumulator stack (the stack that operators write their results to)" is
false at this input. -/
theorem vm_sentinel_accumulator_counterexample :
    (execute_vm_code [0, 255, 5, 0, 255] 0).map VMResult.value = some 5 ∧
    (execute_vm_code [0, 255, 5, 0, 255] 0).map
      (fun r => r.flag_stack.headD 0) = some 0 ∧
    (5 : Nat) ≠ 0 := by decide

/-- C2 (amended): when the VM reads the `0xFF` sentinel it terminates
the whole evaluation immediately, returning the bottom element of the
*value* stack (the stack operand pushes write the operand to; operators
write their intermediate results to the flag stack), or 0 if the value
stack is empty; in particular on a stream whose first byte is `0xFF` it
returns 0. -/
theorem vm_sentinel_returns_value_stack_bottom (data vs fs : List Nat)
    (pos errs fuel : Nat) (hb : (read_next_byte data pos).1 = 255) :
    vm_loop data (fuel + 1) vs fs pos errs =
      some ⟨vs.headD 0, vs, fs, (read_next_byte data pos).2, errs⟩ ∧
    ∀ rest : List Nat,
      (execute_vm_code (255 :: rest) 0).map VMResult.value = some 0 := by
  constructor
  · simp only [vm_loop, hb, if_pos]
  · intro rest
    simp [execute_vm_code, vm_loop, read_next_byte]

/-- Witness for C2's amended theorem: sentinel at cursor 0 of `[0xFF]`
with nonempty stacks returns the value-stack bottom 7. -/
theorem vm_sentinel_returns_value_stack_bottom_witness :
    (read_next_byte [255] 0).1 = 255 ∧
    vm_loop [255] 1 [7, 8] [9] 0 0 = some ⟨7, [7, 8], [9], 1, 0⟩ := by
  refine ⟨by decide, ?_⟩
  rw [(vm_sentinel_returns_value_stack_bottom [255] [7, 8] [9] 0 0 0
    (by decide)).1]
  decide

/-- C3 counterexample: the stream encoding pushes of 5 and 3 followed by
the subtraction operator (21) and the terminator returns 5, not 2. -/
theorem vm_subtraction_counterexample :
    (execute_vm_code [0, 255, 5, 0, 0, 255, 3, 0, 21, 21, 255] 0).map
      VMResult.value = some 5 ∧ (5 : Nat) ≠ 2 := by decide

/-- C3 (amended): on that stream each push places the 16-bit-masked
operand on the value stack and a zero flag on the flag stack; the
subtraction operator (21) subtracts the popped value-stack top from the
flag-stack top (masked to 32 bits) and immediately pops the flag stack,
discarding the difference; the VM then returns the bottom of the value
stack, 5. -/
theorem vm_subtraction_stream_returns_five :
    execute_vm_code [0, 255, 5, 0, 0, 255, 3, 0, 21, 21, 255] 0 =
      some ⟨5, [5], [0], 11, 0⟩ ∧
    apply_operation 21 [5, 3] [0, 0] = (([5], [0]), false) := by decide

/-- C4 counterexample: a stream that pushes 5 and 0 and divides (23)
returns 5 (the value-stack bottom), not 0 — the claim's "the evaluation
returns 0" is false at this input. -/
theorem vm_div_by_zero_counterexample :
    (execute_vm_code [0, 255, 5, 0, 0, 255, 0, 0, 23, 23, 255] 0).map
      VMResult.value = some 5 ∧ (5 : Nat) ≠ 0 := by decide

/-- C4 (amended): applying the division operator (23) with divisor 0
writes 0 to the flag-stack top (then pops it) and signals no error;
modulo (24) with divisor 0 likewise coerces its result to 0 and only
signals the recoverable modulo-by-zero condition; a full run containing
a modulo-by-zero completes normally with exactly one signal recorded,
and a run in which the zero divisor is the only operand returns 0
without raising any error. -/
theorem vm_div_mod_by_zero (vs fs : List Nat) (f : Nat) :
    div_result f 0 = 0 ∧
    apply_operation 23 (vs ++ [0]) (fs ++ [f]) = ((vs, fs), false) ∧
    mod_result f 0 = 0 ∧
    apply_operation 24 (vs ++ [0]) (fs ++ [f]) = ((vs, fs), true) ∧
    (execute_vm_code [0, 255, 5, 0, 0, 255, 0, 0, 24, 24, 255] 0).map
      (fun r => (r.value, r.mod_errors)) = some (5, 1) ∧
    (execute_vm_code [0, 255, 0, 0, 23, 23, 255] 0).map
      (fun r => (r.value, r.mod_errors)) = some (0, 0) := by
  refine ⟨by simp [div_result], ?_, by simp [mod_result], ?_, by decide,
    by decide⟩
  · simp [apply_operation, div_result, set_last, List.getLastD_concat,
      List.dropLast_concat]
  · simp [apply_operation, mod_result, set_last, List.getLastD_concat,
      List.dropLast_concat]

/-- C10: invoked with the shared cursor at or past the end of
`command_data`, the VM's byte reader yields the `0xFF` end-of-data
marker without advancing, so the evaluation returns 0 immediately and
the cursor is unchanged. -/
theorem vm_at_end_of_data (data : List Nat) (pos : Nat)
    (hpos : data.length ≤ pos) :
    read_next_byte data pos = (255, pos) ∧
    execute_vm_code data pos = some ⟨0, [], [], pos, 0⟩ := by
  have h1 : read_next_byte data pos = (255, pos) := by
    simp [read_next_byte, hpos]
  refine ⟨h1, ?_⟩
  unfold execute_vm_code
  simp only [vm_loop, h1, if_pos]
  rfl

/-- Witness for C10 at `data = [1, 2]`, cursor 5. -/
theorem vm_at_end_of_data_witness :
    ([1, 2] : List Nat).length ≤ 5 ∧
    (read_next_byte [1, 2] 5 = (255, 5) ∧
      execute_vm_code [1, 2] 5 = some ⟨0, [], [], 5, 0⟩) :=
  ⟨by decide, vm_at_end_of_data [1, 2] 5 (by decide)⟩

/-- Helper: on a buffer of `n` copies of a nonzero byte, the read loop
consumes every byte as long as the accumulated count stays at or below
5001 (the cap check `len(result) > 5000` fires only after the 5001st
byte is appended and consumed). -/
theorem read_C_aux_replicate (b : Nat) (hb : b ≠ 0) :
    ∀ (n accLen : Nat), accLen + n ≤ 5001 →
      read_C_aux (List.replicate n b) accLen = (n, List.replicate n b) := by
  intro n
  induction n with
  | zero => intro accLen _; simp [read_C_aux]
  | succ n ih =>
    intro accLen h
    rw [List.replicate_succ]
    simp only [read_C_aux, if_neg hb]
    by_cases hcap : accLen + 1 > 5000
    · have hn : n = 0 := by omega
      subst hn
      simp [if_pos hcap]
    · rw [if_neg hcap, ih (accLen + 1) (by omega)]

/-- Helper: a run of non-null bytes followed by a `0x00` terminator is
fully consumed together with 1 extra byte (2 when a second `0x00`
follows), as long as the accumulated count stays within the cap. -/
theorem read_C_aux_terminator :
    ∀ (pre : List Nat) (rest : List Nat) (accLen : Nat),
      (∀ x ∈ pre, x ≠ 0) → accLen + pre.length ≤ 5000 →
      read_C_aux (pre ++ 0 :: rest) accLen =
        (pre.length + (if rest.head? = some 0 then 2 else 1), pre) := by
  intro pre
  induction pre with
  | nil =>
    intro rest accLen _ _
    simp only [List.nil_append, read_C_aux, if_pos]
    match rest with
    | [] => rfl
    | 0 :: rs => rfl
    | (r + 1) :: rs => rfl
  | cons b pre ih =>
    intro rest accLen hnz hlen
    have hb : b ≠ 0 := hnz b (List.mem_cons_self b pre)
    have hcap : ¬ accLen + 1 > 5000 := by
      simp only [List.length_cons] at hlen
      omega
    rw [List.cons_append]
    simp only [read_C_aux, if_neg hb, if_neg hcap]
    rw [ih rest (accLen + 1) (fun x hx => hnz x (List.mem_cons_of_mem b hx))
      (by simp only [List.length_cons] at hlen; omega)]
    simp only [List.length_cons]
    rw [Prod.mk.injEq]
    exact ⟨by omega, rfl⟩

/-- C6 counterexample: on 5001 non-null bytes the reader consumes 5001
bytes, not the claimed 5000 (the safety check fires only after the
5001st byte has been appended). -/
theorem read_C_string_cap_counterexample :
    (read_C_string (List.replicate 5001 65) 0).1 = 5001 ∧
    (5001 : Nat) ≠ 5000 := by
  refine ⟨?_, by decide⟩
  unfold read_C_string
  rw [List.drop_zero, read_C_aux_replicate 65 (by decide) 5001 0 (by decide)]

/-- C6 (amended): `read_string` reads bytes until a single `0x00`
(consuming 1 extra byte) or two consecutive `0x00` bytes (consuming 2
extra bytes), or stops once *more than 5000* bytes have accumulated
(i.e. after consuming a 5001st byte): on `[0x41, 0x42, 0x00]` at offset
0 it returns `(3, "AB")`; on `[0x00, 0x00]` it returns `(2, "")`; on
5001 non-null bytes it stops at 5001 consumed bytes without a
terminator. -/
theorem read_C_string_behavior (pre rest : List Nat)
    (hnz : ∀ x ∈ pre, x ≠ 0) (hlen : pre.length ≤ 5000) :
    read_C_string (pre ++ 0 :: rest) 0 =
      (pre.length + (if rest.head? = some 0 then 2 else 1), pre) ∧
    read_C_string [65, 66, 0] 0 = (3, [65, 66]) ∧
    read_C_string [0, 0] 0 = (2, []) ∧
    read_C_string (List.replicate 5001 65) 0 =
      (5001, List.replicate 5001 65) := by
  refine ⟨?_, by decide, by decide, ?_⟩
  · unfold read_C_string
    rw [List.drop_zero, read_C_aux_terminator pre rest 0 hnz (by omega)]
  · unfold read_C_string
    rw [List.drop_zero, read_C_aux_replicate 65 (by decide) 5001 0 (by decide)]

/-- Witness for C6's amended theorem at `pre = [0x41, 0x42]`,
`rest = []`: `read_C_string [0x41, 0x42, 0x00] 0 = (3, "AB")`. -/
theorem read_C_string_behavior_witness :
    read_C_string ([65, 66] ++ 0 :: []) 0 =
      (([65, 66] : List Nat).length +
        (if ([] : List Nat).head? = some 0 then 2 else 1), [65, 66]) :=
  (read_C_string_behavior [65, 66] [] (by decide) (by decide)).1

/-- Helper: the trailing-zero loop computes `s` whenever `p` is divisible
by `2 ^ s`, bit `s` of `p` is 1, and at least `s` fuel is available. -/
theorem clz_aux_eq :
    ∀ (s p fuel : Nat), s ≤ fuel → p % 2 ^ s = 0 → (p >>> s) % 2 = 1 →
      clz_aux fuel p = s := by
  intro s
  induction s with
  | zero =>
    intro p fuel _ _ h2
    rw [Nat.shiftRight_zero] at h2
    match fuel with
    | 0 => rfl
    | f + 1 => simp [clz_aux, h2]
  | succ s ih =>
    intro p fuel hf h1 h2
    obtain ⟨f, rfl⟩ : ∃ f, fuel = f + 1 := ⟨fuel - 1, by omega⟩
    obtain ⟨k, hk⟩ := Nat.dvd_of_mod_eq_zero h1
    have hk2 : p = 2 * (2 ^ s * k) := by rw [hk]; ring
    have hp2 : p % 2 = 0 := by omega
    have hdiv : p / 2 = 2 ^ s * k := by omega
    simp only [clz_aux, hp2, if_pos]
    have hrec : clz_aux f (p / 2) = s := by
      apply ih (p / 2) f (by omega)
      · rw [hdiv]
        exact Nat.mul_mod_right _ _
      · rw [Nat.shiftRight_eq_div_pow] at h2 ⊢
        rw [Nat.div_div_eq_div_mul]
        have hpow : 2 * 2 ^ s = 2 ^ (s + 1) := by ring
        rw [hpow]
        exact h2
    omega

/-- Helper: the run-of-ones loop computes `w` whenever the low `w` bits
of `q` are all 1, bit `w` of `q` is 0, and at least `w` fuel is
available. -/
theorem clo_aux_eq :
    ∀ (w q fuel : Nat), w ≤ fuel → q % 2 ^ w = 2 ^ w - 1 →
      (q >>> w) % 2 = 0 → clo_aux fuel q = w := by
  intro w
  induction w with
  | zero =>
    intro q fuel _ _ h2
    rw [Nat.shiftRight_zero] at h2
    match fuel with
    | 0 => rfl
    | f + 1 => simp [clo_aux, h2]
  | succ w ih =>
    intro q fuel hf h1 h2
    obtain ⟨f, rfl⟩ : ∃ f, fuel = f + 1 := ⟨fuel - 1, by omega⟩
    have hP : 1 ≤ 2 ^ w := Nat.one_le_two_pow
    have hd := Nat.div_add_mod q (2 ^ (w + 1))
    rw [h1] at hd
    set k := q / 2 ^ (w + 1) with hkdef
    have hq : q = 2 * (2 ^ w * k) + (2 * 2 ^ w - 1) := by
      have hassoc : 2 ^ (w + 1) * k = 2 * (2 ^ w * k) := by ring
      have hpow : (2 : Nat) ^ (w + 1) = 2 * 2 ^ w := by ring
      rw [hassoc, hpow] at hd
      omega
    have hq2 : q % 2 = 1 := by omega
    simp only [clo_aux, hq2, if_pos]
    have hdiv : q / 2 = 2 ^ w - 1 + 2 ^ w * k := by omega
    have hrec : clo_aux f (q / 2) = w := by
      apply ih (q / 2) f (by omega)
      · rw [hdiv, Nat.add_mul_mod_self_left]
        exact Nat.mod_eq_of_lt (by omega)
      · rw [Nat.shiftRight_eq_div_pow] at h2 ⊢
        rw [Nat.div_div_eq_div_mul]
        have hpow2 : 2 * 2 ^ w = 2 ^ (w + 1) := by ring
        rw [hpow2]
        exact h2
    omega

/-- Helper: `count_low_zeros` agrees with the trailing-zero
characterization for nonzero patterns. -/
theorem count_low_zeros_eq (p s : Nat) (hp : p ≠ 0) (h1 : p % 2 ^ s = 0)
    (h2 : (p >>> s) % 2 = 1) : count_low_zeros p = s := by
  have hle : 2 ^ s ≤ p :=
    Nat.le_of_dvd (Nat.pos_of_ne_zero hp) (Nat.dvd_of_mod_eq_zero h1)
  have hs : s < 2 ^ s := Nat.lt_two_pow s
  exact clz_aux_eq s p p (by omega) h1 h2

/-- Helper: `count_low_ones` agrees with the run-of-ones
characterization. -/
theorem count_low_ones_eq (q w : Nat) (h1 : q % 2 ^ w = 2 ^ w - 1)
    (h2 : (q >>> w) % 2 = 0) : count_low_ones q = w := by
  have hm : q % 2 ^ w ≤ q := Nat.mod_le q _
  have hw : w < 2 ^ w := Nat.lt_two_pow w
  exact clo_aux_eq w q q (by omega) h1 h2

/-- Helper: `create_mask` is `(1 <<< n) - 1` also at `n = 0`. -/
theorem create_mask_eq (n : Nat) : create_mask n = (1 <<< n) - 1 := by
  unfold create_mask
  split
  · rename_i h
    subst h
    rfl
  · rfl

/-- Helper: the closed form of `extract_bit_field` for a nonzero pattern
whose trailing-zero count is `s` and run-of-ones length is `w`. -/
theorem extract_bit_field_eq (wt : List Nat) (i p s w : Nat) (hp : p ≠ 0)
    (h1 : p % 2 ^ s = 0) (h2 : (p >>> s) % 2 = 1)
    (h3 : (p >>> s) % 2 ^ w = 2 ^ w - 1) (h4 : ((p >>> s) >>> w) % 2 = 0)
    (hi : i < wt.length) :
    extract_bit_field wt i p = (wt.getD i 0 >>> s) &&& ((1 <<< w) - 1) := by
  simp only [extract_bit_field, if_neg hp]
  rw [count_low_zeros_eq p s hp h1 h2, count_low_ones_eq (p >>> s) w h3 h4,
    if_pos hi, create_mask_eq]

/-- C5: for every table and table index `i` and pattern `p`, the
bit-field extraction primitive returns 0 when `p = 0`; otherwise, with
`s` the number of trailing zero bits of `p` (characterized by
`p % 2 ^ s = 0` and bit `s` of `p` set) and `w` the length of the run of
one bits starting just above them (characterized by the low `w` bits of
`p >>> s` all set and bit `w` clear), it returns
`(word_table[i] >>> s) &&& ((1 <<< w) - 1)`.  In particular for
`p = 0b00110000` (shift 4, width 2) and table value `V` the result is
`(V >>> 4) &&& 0x3`. -/
theorem extract_bit_field_correct (wt : List Nat) (i p s w : Nat) :
    (p = 0 → extract_bit_field wt i p = 0) ∧
    (p ≠ 0 → p % 2 ^ s = 0 → (p >>> s) % 2 = 1 →
      (p >>> s) % 2 ^ w = 2 ^ w - 1 → ((p >>> s) >>> w) % 2 = 0 →
      i < wt.length →
      extract_bit_field wt i p = (wt.getD i 0 >>> s) &&& ((1 <<< w) - 1)) ∧
    (∀ V j, j < 256 →
      extract_bit_field ((List.replicate 256 0).set j V) j 48 =
        (V >>> 4) &&& 3) := by
  refine ⟨?_, ?_, ?_⟩
  · intro hp
    simp [extract_bit_field, hp]
  · intro hp h1 h2 h3 h4 hi
    exact extract_bit_field_eq wt i p s w hp h1 h2 h3 h4 hi
  · intro V j hj
    have hlen : ((List.replicate 256 0).set j V).length = 256 := by
      rw [List.length_set, List.length_replicate]
    have h := extract_bit_field_eq ((List.replicate 256 0).set j V) j 48 4 2
      (by decide) (by decide) (by decide) (by decide) (by decide)
      (by rw [hlen]; exact hj)
    rw [h]
    have hget : ((List.replicate 256 0).set j V).getD j 0 = V := by
      rw [List.getD_eq_getElem?_getD, List.getElem?_set_self]
      · rfl
      · rw [List.length_replicate]
        exact hj
    have hmask : (1 <<< 2) - 1 = 3 := by decide
    rw [hget, hmask]

/-- Witness for C5 at table index 3 holding value 53, pattern
`0b00110000`. -/
theorem extract_bit_field_correct_witness :
    extract_bit_field ((List.replicate 256 0).set 3 53) 3 48 =
      (53 >>> 4) &&& 3 :=
  (extract_bit_field_correct ((List.replicate 256 0).set 3 53)
    3 48 4 2).2.2 53 3 (by decide)

/-- Helper: the read loop consumes at least one byte from a nonempty
suffix (every branch of the loop body advances the offset). -/
theorem read_C_aux_pos (l : List Nat) (accLen : Nat) (h : l ≠ []) :
    1 ≤ (read_C_aux l accLen).1 := by
  match l with
  | [] => exact absurd rfl h
  | b :: rest =>
    simp only [read_C_aux]
    by_cases hb : b = 0
    · rw [if_pos hb]
      rcases rest with _ | ⟨c, rest⟩
      · exact Nat.le_refl 1
      · rcases c with _ | c
        · exact Nat.le_of_lt Nat.one_lt_two
        · exact Nat.le_refl 1
    · rw [if_neg hb]
      by_cases hcap : accLen + 1 > 5000
      · rw [if_pos hcap]
      · rw [if_neg hcap]
        exact Nat.succ_le_succ (Nat.zero_le _)

/-- Helper: for every in-bounds offset, `read_C_string` consumes at
least one byte; hence the `length == 0` test guarding the name-cache
fallback in `_handle_string_opcode` can never be true there. -/
theorem read_C_string_consumes (data : List Nat) (off : Nat)
    (h : off < data.length) : 1 ≤ (read_C_string data off).1 := by
  unfold read_C_string
  apply read_C_aux_pos
  intro heq
  have hle := List.drop_eq_nil_iff.mp heq
  omega

/-- C7 (code bug): the name-resolution fallback of
`_handle_string_opcode` is guarded by `length == 0`, where `length` is
the number of *bytes consumed* by `read_C_string`; for every in-bounds
text offset at least one byte is consumed, so the fallback can never
fire and resolution always returns the freshly decoded string.  In the
claim's scenario — `【A】` decoded (and cached) at offset 100, then an
empty string decoded at offset 105 with name-resolution semantics — the
code therefore yields the empty string, not the cached `【A】`
(`[129, 121, 65, 129, 122]` are the Shift-JIS bytes of `【A】`). -/
theorem name_cache_fallback_unreachable :
    (∀ (nc : NameCacheState) (text : List Nat) (off flag : Nat),
      off < text.length →
      handle_string_core nc text off flag =
        (some (read_C_string text off).2,
          cache_name nc off (read_C_string text off).2)) ∧
    ((handle_string_core
        (handle_string_core emptyNameCache
          (List.replicate 100 65 ++ [129, 121, 65, 129, 122, 0, 0]) 100
          (string_opcode_flag 1)).2
        (List.replicate 100 65 ++ [129, 121, 65, 129, 122, 0, 0]) 105
        (string_opcode_flag 1)).1 = some [] ∧
      cache_get_name
        (handle_string_core emptyNameCache
          (List.replicate 100 65 ++ [129, 121, 65, 129, 122, 0, 0]) 100
          (string_opcode_flag 1)).2 100 = some [129, 121, 65, 129, 122] ∧
      some ([] : List Nat) ≠ some [129, 121, 65, 129, 122]) := by
  constructor
  · intro nc text off flag hoff
    unfold handle_string_core
    rw [if_pos hoff]
    have h1 := read_C_string_consumes text off hoff
    have h2 : ¬ ((read_C_string text off).1 = 0 ∧ flag = 1) := by
      intro hc
      omega
    rw [if_neg h2]
  · decide

/-- Witness for C7's general clause at text `[0x41, 0x00]`, offset 0,
name-resolution flag 1: resolution returns the decoded string and the
fallback is bypassed. -/
theorem name_cache_fallback_unreachable_witness :
    handle_string_core emptyNameCache [65, 0] 0 1 =
      (some (read_C_string [65, 0] 0).2,
        cache_name emptyNameCache 0 (read_C_string [65, 0] 0).2) :=
  name_cache_fallback_unreachable.1 emptyNameCache [65, 0] 0 1 (by decide)

/-- Helper: indexing past a known prefix of an appended buffer. -/
theorem getD_append_offset (l1 l2 : List Nat) (i : Nat) :
    (l1 ++ l2).getD (l1.length + i) 0 = l2.getD i 0 := by
  rw [List.getD_eq_getElem?_getD, List.getD_eq_getElem?_getD,
    List.getElem?_append_right (Nat.le_add_right _ _), Nat.add_sub_cancel_left]

/-- Helper: a byte read at the first position after a known prefix. -/
theorem sys_get_next_byte_append (pre l2 : List Nat) (b : Nat) :
    sys_get_next_byte (pre ++ b :: l2) pre.length =
      some (b, pre.length + 1) := by
  have hb : (pre ++ b :: l2).getD pre.length 0 = b := by
    have h := getD_append_offset pre (b :: l2) 0
    simpa using h
  have hlen : ¬ (pre ++ b :: l2).length ≤ pre.length := by
    simp only [List.length_append, List.length_cons]
    omega
  unfold sys_get_next_byte
  rw [if_neg hlen, hb]

/-- Helper: a 16-bit read starting one byte past a known prefix. -/
theorem get_next_word_append1 (pre l2 : List Nat) (a b1 b2 : Nat) :
    get_next_word (pre ++ a :: b1 :: b2 :: l2) (pre.length + 1) =
      some (b1 + 256 * b2, pre.length + 3) := by
  have h1 : (pre ++ a :: b1 :: b2 :: l2).getD (pre.length + 1) 0 = b1 := by
    have h := getD_append_offset pre (a :: b1 :: b2 :: l2) 1
    simpa using h
  have h2 : (pre ++ a :: b1 :: b2 :: l2).getD (pre.length + 1 + 1) 0 = b2 := by
    have h := getD_append_offset pre (a :: b1 :: b2 :: l2) 2
    rw [show pre.length + 1 + 1 = pre.length + 2 by omega]
    simpa using h
  have hlen : ¬ (pre ++ a :: b1 :: b2 :: l2).length ≤ pre.length + 1 + 1 := by
    simp only [List.length_append, List.length_cons]
    omega
  unfold get_next_word read_uint16
  rw [if_neg hlen, h1, h2]

/-- Helper: the case-scanning loop on a stream that encodes the case
list after a known prefix: every case is read (the cursor ends exactly
`3 * cs.length` bytes further), each case matches exactly when its
case-value byte is `255` or equals the extracted parameter, the matches
are reported in order after the accumulator, and `found` accumulates
whether any case matched — no short-circuiting. -/
theorem switch_loop_encode (x : Nat) (cs : List (Nat × Nat)) :
    ∀ (pre suffix : List Nat) (found : Bool) (acc : List (Nat × Nat)),
      switch_loop (pre ++ encode_cases cs ++ suffix) x cs.length pre.length
        found acc =
      some (acc.reverse ++ cs.filter (fun c => decide (c.1 = 255 ∨ x = c.1)),
        (found || cs.any fun c => decide (c.1 = 255 ∨ x = c.1)),
        pre.length + 3 * cs.length) := by
  induction cs with
  | nil =>
    intro pre suffix found acc
    simp [switch_loop, encode_cases]
  | cons c rest ih =>
    intro pre suffix found acc
    have hexp : encode_cases (c :: rest) =
        c.1 :: c.2 % 256 :: c.2 / 256 :: encode_cases rest := rfl
    rw [hexp, List.append_assoc, List.cons_append, List.cons_append,
      List.cons_append]
    have h1 := sys_get_next_byte_append pre
      (c.2 % 256 :: c.2 / 256 :: (encode_cases rest ++ suffix)) c.1
    have h2 := get_next_word_append1 pre (encode_cases rest ++ suffix) c.1
      (c.2 % 256) (c.2 / 256)
    have hw : c.2 % 256 + 256 * (c.2 / 256) = c.2 := by omega
    rw [hw] at h2
    simp only [List.length_cons, switch_loop, h1, h2]
    have hdata : pre ++ c.1 :: c.2 % 256 :: c.2 / 256 ::
        (encode_cases rest ++ suffix) =
        (pre ++ [c.1, c.2 % 256, c.2 / 256]) ++ encode_cases rest ++ suffix := by
      simp
    have hlen3 : (pre ++ [c.1, c.2 % 256, c.2 / 256]).length = pre.length + 3 := by
      simp
    by_cases hm : c.1 = 255 ∨ x = c.1
    · rw [if_pos hm]
      have hIH := ih (pre ++ [c.1, c.2 % 256, c.2 / 256]) suffix true
        ((c.1, c.2) :: acc)
      rw [hlen3] at hIH
      rw [hdata, hIH]
      have hp : decide (c.1 = 255 ∨ x = c.1) = true := by simpa using hm
      rw [List.filter_cons_of_pos (by simpa using hm), List.any_cons, hp]
      simp only [List.reverse_cons, List.append_assoc, List.cons_append,
        List.nil_append, Bool.true_or, Bool.or_true, Prod.mk.eta]
      rw [show pre.length + 3 + 3 * rest.length =
        pre.length + 3 * (rest.length + 1) by omega]
    · rw [if_neg hm]
      have hIH := ih (pre ++ [c.1, c.2 % 256, c.2 / 256]) suffix found acc
      rw [hlen3] at hIH
      rw [hdata, hIH]
      have hp : decide (c.1 = 255 ∨ x = c.1) = false := by simpa using hm
      rw [List.filter_cons_of_neg (by simpa using hm), List.any_cons, hp]
      simp only [Bool.false_or]
      rw [show pre.length + 3 + 3 * rest.length =
        pre.length + 3 * (rest.length + 1) by omega]

/-- C8: in the switch/case handler, for every case list and extracted
parameter `x`, a case matches iff its case-value byte is `0xFF`
(wildcard) or equals `x`; all `case_count` cases are read and scanned
without short-circuiting (the full handler consumes the header plus all
`3 * case_count` case bytes even when an early case matches), every
matching case is reported, and the default target is reported iff no
case matched.  With case values `[5, 0xFF]` and extracted parameter 7,
only the wildcard case matches. -/
theorem switch_case_correct (x : Nat) (cs : List (Nat × Nat)) :
    (∀ suffix : List Nat,
      switch_loop (encode_cases cs ++ suffix) x cs.length 0 false [] =
        some (cs.filter (fun c => decide (c.1 = 255 ∨ x = c.1)),
          (cs.any fun c => decide (c.1 = 255 ∨ x = c.1)), 3 * cs.length)) ∧
    (∀ (b0 v d : Nat) (suffix : List Nat),
      handle_switch_case (b0 :: v % 256 :: v / 256 :: d % 256 :: d / 256 ::
          cs.length :: (encode_cases cs ++ suffix)) 0 =
        some (cs.filter
            (fun c => decide (c.1 = 255 ∨ sub_414FE6 b0 v = c.1)),
          !(cs.any fun c => decide (c.1 = 255 ∨ sub_414FE6 b0 v = c.1)),
          6 + 3 * cs.length)) ∧
    (cs.filter (fun c => decide (c.1 = 255 ∨ x = c.1)) = [] ↔
      (cs.any fun c => decide (c.1 = 255 ∨ x = c.1)) = false) ∧
    switch_loop (encode_cases [(5, 100), (255, 200)]) 7 2 0 false [] =
      some ([(255, 200)], true, 6) := by
  refine ⟨?_, ?_, ?_, by decide⟩
  · intro suffix
    have h := switch_loop_encode x cs [] suffix false []
    simpa using h
  · intro b0 v d suffix
    have hv : v % 256 + 256 * (v / 256) = v := by omega
    have hd : d % 256 + 256 * (d / 256) = d := by omega
    have hb0 : sys_get_next_byte (b0 :: v % 256 :: v / 256 :: d % 256 ::
        d / 256 :: cs.length :: (encode_cases cs ++ suffix)) 0 =
        some (b0, 1) := by
      have h := sys_get_next_byte_append []
        (v % 256 :: v / 256 :: d % 256 :: d / 256 :: cs.length ::
          (encode_cases cs ++ suffix)) b0
      simpa using h
    have hw1 : get_next_word (b0 :: v % 256 :: v / 256 :: d % 256 ::
        d / 256 :: cs.length :: (encode_cases cs ++ suffix)) 1 =
        some (v, 3) := by
      have h := get_next_word_append1 []
        (d % 256 :: d / 256 :: cs.length :: (encode_cases cs ++ suffix))
        b0 (v % 256) (v / 256)
      rw [List.nil_append, List.length_nil] at h
      rw [hv] at h
      simpa using h
    have hw2 : get_next_word (b0 :: v % 256 :: v / 256 :: d % 256 ::
        d / 256 :: cs.length :: (encode_cases cs ++ suffix)) 3 =
        some (d, 5) := by
      have h := get_next_word_append1 [b0, v % 256]
        (cs.length :: (encode_cases cs ++ suffix)) (v / 256)
        (d % 256) (d / 256)
      rw [hd] at h
      simpa using h
    have hb5 : sys_get_next_byte (b0 :: v % 256 :: v / 256 :: d % 256 ::
        d / 256 :: cs.length :: (encode_cases cs ++ suffix)) 5 =
        some (cs.length, 6) := by
      have h := sys_get_next_byte_append
        [b0, v % 256, v / 256, d % 256, d / 256]
        (encode_cases cs ++ suffix) cs.length
      simpa using h
    have hloop := switch_loop_encode (sub_414FE6 b0 v) cs
      [b0, v % 256, v / 256, d % 256, d / 256, cs.length] suffix false []
    simp only [List.length_cons, List.length_nil, List.cons_append,
      List.nil_append, List.reverse_nil] at hloop
    simp only [handle_switch_case, hb0, hw1, hw2, hb5, hloop,
      List.nil_append, Bool.false_or]
  · constructor
    · intro hf
      simp only [List.any_eq_false]
      intro c hc
      simpa using List.filter_eq_nil_iff.mp hf c hc
    · intro ha
      rw [List.filter_eq_nil_iff]
      intro c hc
      simpa using List.any_eq_false.mp ha c hc

/-- Helper: the inner dispatcher on an unknown opcode byte returns the
fatal status `-1` together with the reported offset and value (the
caught `NormalOpcodeDisassemblerException`). -/
theorem process_single_command_unknown (cmd text : List Nat) (st : DecodeSt)
    (hlt : st.pos < cmd.length)
    (hnone : normal_opcode_handlers (cmd.getD st.pos 0) = none) :
    process_single_command cmd text st =
      (-1, some (.unknownOpcode (cmd.getD st.pos 0) st.pos),
        { st with pos := st.pos + 1 }) := by
  have hn : ¬ cmd.length ≤ st.pos := by omega
  simp only [process_single_command, if_neg hn, hnone]

/-- Helper: the inner decode loop stops right after an unknown opcode. -/
theorem process_all_commands_unknown (cmd text : List Nat) (st : DecodeSt)
    (fuel : Nat) (hlt : st.pos < cmd.length)
    (hnone : normal_opcode_handlers (cmd.getD st.pos 0) = none) :
    process_all_commands cmd text (fuel + 1) st =
      { st with pos := st.pos + 1 } := by
  have hn : ¬ cmd.length ≤ st.pos := by omega
  simp only [process_all_commands, if_neg hn,
    process_single_command_unknown cmd text st hlt hnone]
  norm_num

/-- Helper: the outer dispatcher merely reports an unmapped basic opcode
(1, 2, 3, 6 or 7) and keeps looping at the next byte. -/
theorem process_sys_calls_unhandled (cmd text : List Nat) (st : DecodeSt)
    (fuel : Nat) (evs : List SysEvent) (hlt : st.pos < cmd.length)
    (hop : cmd.getD st.pos 0 = 1 ∨ cmd.getD st.pos 0 = 2 ∨
      cmd.getD st.pos 0 = 3 ∨ cmd.getD st.pos 0 = 6 ∨
      cmd.getD st.pos 0 = 7) :
    process_sys_calls cmd text (fuel + 1) st evs =
      process_sys_calls cmd text fuel { st with pos := st.pos + 1 }
        (evs ++ [.unhandledOpcode (cmd.getD st.pos 0) st.pos]) := by
  have hn : ¬ cmd.length ≤ st.pos := by omega
  have hstep : process_sys_opcode cmd text (cmd.getD st.pos 0) st.pos
      { st with pos := st.pos + 1 } =
      some ({ st with pos := st.pos + 1 },
        some (.unhandledOpcode (cmd.getD st.pos 0) st.pos)) := by
    rcases hop with h | h | h | h | h <;> rw [h] <;>
      simp [process_sys_opcode]
  simp only [process_sys_calls, if_neg hn, hstep, Option.toList_some]

/-- C9: when the Normal Opcode Dispatcher reads an opcode byte matching
none of its known opcode values, it raises an `UnknownOpcode` condition
reported with the offset and the value, fatal to the current decode pass
(status `-1`; the inner decode loop stops right there); this is
distinguishable from the outer dispatcher's `UnhandledOpcode`, which is
merely reported while the outer decode loop continues with the next
byte. -/
theorem unknown_opcode_handling :
    (∀ (cmd text : List Nat) (st : DecodeSt),
      st.pos < cmd.length →
      normal_opcode_handlers (cmd.getD st.pos 0) = none →
      process_single_command cmd text st =
        (-1, some (.unknownOpcode (cmd.getD st.pos 0) st.pos),
          { st with pos := st.pos + 1 })) ∧
    (∀ (cmd text : List Nat) (st : DecodeSt) (fuel : Nat),
      st.pos < cmd.length →
      normal_opcode_handlers (cmd.getD st.pos 0) = none →
      process_all_commands cmd text (fuel + 1) st =
        { st with pos := st.pos + 1 }) ∧
    (∀ (cmd text : List Nat) (st : DecodeSt) (fuel : Nat)
        (evs : List SysEvent),
      st.pos < cmd.length →
      (cmd.getD st.pos 0 = 1 ∨ cmd.getD st.pos 0 = 2 ∨
        cmd.getD st.pos 0 = 3 ∨ cmd.getD st.pos 0 = 6 ∨
        cmd.getD st.pos 0 = 7) →
      process_sys_calls cmd text (fuel + 1) st evs =
        process_sys_calls cmd text fuel { st with pos := st.pos + 1 }
          (evs ++ [.unhandledOpcode (cmd.getD st.pos 0) st.pos])) :=
  ⟨process_single_command_unknown,
    fun cmd text st fuel hlt hnone =>
      process_all_commands_unknown cmd text st fuel hlt hnone,
    fun cmd text st fuel evs hlt hop =>
      process_sys_calls_unhandled cmd text st fuel evs hlt hop⟩

/-- Witness for C9 on the one-byte command stream `[0x03]` (unknown to
the inner dispatcher, unmapped-basic for the outer dispatcher). -/
theorem unknown_opcode_handling_witness :
    process_single_command [3] [] ⟨0, emptyNameCache, 0⟩ =
      (-1, some (.unknownOpcode 3 0), ⟨1, emptyNameCache, 0⟩) ∧
    process_all_commands [3] [] 1 ⟨0, emptyNameCache, 0⟩ =
      ⟨1, emptyNameCache, 0⟩ ∧
    process_sys_calls [3] [] 1 ⟨0, emptyNameCache, 0⟩ [] =
      process_sys_calls [3] [] 0 ⟨1, emptyNameCache, 0⟩
        [.unhandledOpcode 3 0] := by
  refine ⟨?_, ?_, ?_⟩
  · have h := unknown_opcode_handling.1 [3] [] ⟨0, emptyNameCache, 0⟩
      (by decide) (by decide)
    simpa using h
  · have h := unknown_opcode_handling.2.1 [3] [] ⟨0, emptyNameCache, 0⟩ 0
      (by decide) (by decide)
    simpa using h
  · have h := unknown_opcode_handling.2.2 [3] [] ⟨0, emptyNameCache, 0⟩ 0 []
      (by decide) (by decide)
    simpa using h

end AilDisasm
